import Mathlib

set_option maxRecDepth 10000

/-!
Shallow embedding of the APOD image-cache core
(`apod_desktop.py` and `image_lib.py`): the content hasher
(`hashlib.sha256(...).hexdigest()`), the path resolver
(`determine_apod_file_path`), the SQLite-backed record store
(`init_apod_cache`, `add_apod_to_db`, `get_apod_id_from_db`,
`get_apod_info`, `get_all_apod_titles`) and the dedup-and-insert
workflow of `add_apod_to_cache`, together with theorems checking the
specification's claims about them.

Bytes are `Nat` values below 256; 32-bit machine words are `Nat`
values reduced modulo `2^32` wherever overflow matters.  SQLite is
modelled as a list of named tables; a query against a table name that
is not present fails, as `sqlite3` raises `OperationalError`.
-/

namespace Apod

/-! ### ContentHasher: SHA-256 (hashlib.sha256(image_data).hexdigest()) -/

/-- Reduce to a 32-bit word, as every SHA-256 operation does implicitly. -/
def w32 (n : Nat) : Nat := n % 4294967296

/-- Right-rotation of a 32-bit word by `n` places. -/
def rotr (n x : Nat) : Nat := w32 ((x >>> n) ||| (x <<< (32 - n)))

/-- SHA-256 Σ0. -/
def bigSigma0 (x : Nat) : Nat := rotr 2 x ^^^ rotr 13 x ^^^ rotr 22 x

/-- SHA-256 Σ1. -/
def bigSigma1 (x : Nat) : Nat := rotr 6 x ^^^ rotr 11 x ^^^ rotr 25 x

/-- SHA-256 σ0. -/
def smallSigma0 (x : Nat) : Nat := rotr 7 x ^^^ rotr 18 x ^^^ (x >>> 3)

/-- SHA-256 σ1. -/
def smallSigma1 (x : Nat) : Nat := rotr 17 x ^^^ rotr 19 x ^^^ (x >>> 10)

/-- SHA-256 choice function. -/
def ch (x y z : Nat) : Nat := (x &&& y) ^^^ ((4294967295 ^^^ x) &&& z)

/-- SHA-256 majority function. -/
def maj (x y z : Nat) : Nat := (x &&& y) ^^^ (x &&& z) ^^^ (y &&& z)

/-- The 64 SHA-256 round constants (FIPS 180-4), in decimal. -/
def sha256K : List Nat :=
  [1116352408, 1899447441, 3049323471, 3921009573,
   961987163, 1508970993, 2453635748, 2870763221,
   3624381080, 310598401, 607225278, 1426881987,
   1925078388, 2162078206, 2614888103, 3248222580,
   3835390401, 4022224774, 264347078, 604807628,
   770255983, 1249150122, 1555081692, 1996064986,
   2554220882, 2821834349, 2952996808, 3210313671,
   3336571891, 3584528711, 113926993, 338241895,
   666307205, 773529912, 1294757372, 1396182291,
   1695183700, 1986661051, 2177026350, 2456956037,
   2730485921, 2820302411, 3259730800, 3345764771,
   3516065817, 3600352804, 4094571909, 275423344,
   430227734, 506948616, 659060556, 883997877,
   958139571, 1322822218, 1537002063, 1747873779,
   1955562222, 2024104815, 2227730452, 2361852424,
   2428436474, 2756734187, 3204031479, 3329325298]

/-- The eight 32-bit words of SHA-256 working state. -/
structure Hash8 where
  a : Nat
  b : Nat
  c : Nat
  d : Nat
  e : Nat
  f : Nat
  g : Nat
  h : Nat
deriving Repr, DecidableEq

/-- The SHA-256 initial hash value (FIPS 180-4), in decimal. -/
def sha256H0 : Hash8 :=
  ⟨1779033703, 3144134277, 1013904242, 2773480762,
   1359893119, 2600822924, 528734635, 1541459225⟩

/-- One SHA-256 round, consuming a round constant and a schedule word. -/
def sha256Round (st : Hash8) (kw : Nat × Nat) : Hash8 :=
  let t1 := w32 (st.h + bigSigma1 st.e + ch st.e st.f st.g + kw.1 + kw.2)
  let t2 := w32 (bigSigma0 st.a + maj st.a st.b st.c)
  ⟨w32 (t1 + t2), st.a, st.b, st.c, w32 (st.d + t1), st.e, st.f, st.g⟩

/-- Group a 64-byte block into sixteen big-endian 32-bit words. -/
def wordsOfBytes : List Nat → List Nat
  | b0 :: b1 :: b2 :: b3 :: rest =>
      (((b0 * 256 + b1) * 256 + b2) * 256 + b3) :: wordsOfBytes rest
  | _ => []

/-- Extend a message schedule by `fuel` further words (W16 … W63). -/
def extendSchedule (acc : List Nat) : Nat → List Nat
  | 0 => acc
  | fuel + 1 =>
      let i := acc.length
      let w := w32 (smallSigma1 (acc.getD (i - 2) 0) + acc.getD (i - 7) 0 +
                    smallSigma0 (acc.getD (i - 15) 0) + acc.getD (i - 16) 0)
      extendSchedule (acc ++ [w]) fuel

/-- SHA-256 compression of one 64-byte block into the running state. -/
def compressBlock (st : Hash8) (block : List Nat) : Hash8 :=
  let ws := extendSchedule (wordsOfBytes block) 48
  let fin := (sha256K.zip ws).foldl sha256Round st
  ⟨w32 (st.a + fin.a), w32 (st.b + fin.b), w32 (st.c + fin.c), w32 (st.d + fin.d),
   w32 (st.e + fin.e), w32 (st.f + fin.f), w32 (st.g + fin.g), w32 (st.h + fin.h)⟩

/-- The eight big-endian bytes of the 64-bit message-length field. -/
def lenBytes (n : Nat) : List Nat :=
  [(n >>> 56) % 256, (n >>> 48) % 256, (n >>> 40) % 256, (n >>> 32) % 256,
   (n >>> 24) % 256, (n >>> 16) % 256, (n >>> 8) % 256, n % 256]

/-- SHA-256 padding: 0x80, zeros to 56 mod 64, then the bit length. -/
def padMessage (msg : List Nat) : List Nat :=
  let len := msg.length
  let zeros := (64 - (len + 9) % 64) % 64
  msg ++ 128 :: List.replicate zeros 0 ++ lenBytes (8 * len)

/-- Split a padded message into its 64-byte blocks; the fuel bounds the
number of blocks and never runs out when it starts at the byte count. -/
def toBlocksFuel : Nat → List Nat → List (List Nat)
  | 0, _ => []
  | _, [] => []
  | fuel + 1, c :: l => ((c :: l).take 64) :: toBlocksFuel fuel ((c :: l).drop 64)

/-- Split a padded message into its 64-byte blocks. -/
def toBlocks (l : List Nat) : List (List Nat) := toBlocksFuel l.length l

/-- The SHA-256 state after absorbing a whole byte message. -/
def sha256 (msg : List Nat) : Hash8 :=
  (toBlocks (padMessage msg)).foldl compressBlock sha256H0

/-- Lowercase hex digit for a nibble value. -/
def nibbleChar : Nat → Char
  | 0 => '0' | 1 => '1' | 2 => '2' | 3 => '3'
  | 4 => '4' | 5 => '5' | 6 => '6' | 7 => '7'
  | 8 => '8' | 9 => '9' | 10 => 'a' | 11 => 'b'
  | 12 => 'c' | 13 => 'd' | 14 => 'e' | 15 => 'f'
  | _ => '0'

/-- A 32-bit word as exactly eight lowercase hex characters. -/
def wordHex (x : Nat) : List Char :=
  [nibbleChar ((x >>> 28) % 16), nibbleChar ((x >>> 24) % 16),
   nibbleChar ((x >>> 20) % 16), nibbleChar ((x >>> 16) % 16),
   nibbleChar ((x >>> 12) % 16), nibbleChar ((x >>> 8) % 16),
   nibbleChar ((x >>> 4) % 16), nibbleChar (x % 16)]

/-- `hashlib.sha256(msg).hexdigest()`: the digest as lowercase hex. -/
def sha256hex (msg : List Nat) : String :=
  let st := sha256 msg
  ⟨wordHex st.a ++ wordHex st.b ++ wordHex st.c ++ wordHex st.d ++
   wordHex st.e ++ wordHex st.f ++ wordHex st.g ++ wordHex st.h⟩

/-- A lowercase hexadecimal digit. -/
def isLowerHexDigit (c : Char) : Bool :=
  "0123456789abcdef".data.contains c

/-! ### PathResolver: determine_apod_file_path -/

/-- The whitespace characters removed by Python's `str.strip()` (ASCII). -/
def isPySpace (c : Char) : Bool :=
  c == ' ' || c == '\t' || c == '\n' || c == '\r' || c == '\x0b' || c == '\x0c'

/-- `str.strip()`: drop leading and trailing whitespace. -/
def pyStrip (s : String) : String :=
  ⟨((s.data.dropWhile isPySpace).reverse.dropWhile isPySpace).reverse⟩

/-- A regex word character (`\w`): letter, digit or underscore (ASCII). -/
def isWordChar (c : Char) : Bool :=
  c.isAlpha || c.isDigit || c == '_'

/-- `re.sub(r'\W+', '_', ·)`, scanning left to right; the flag records
whether the scanner stands inside a non-word run whose underscore has
already been emitted. -/
def sanitizeAux : Bool → List Char → List Char
  | _, [] => []
  | inRun, c :: cs =>
      if isWordChar c then c :: sanitizeAux false cs
      else if inRun then sanitizeAux true cs
      else '_' :: sanitizeAux true cs

/-- `os.path.splitext(url)[1]`: the extension of the final path
component — the suffix starting at its last dot, provided some
non-dot character precedes that dot within the component. -/
def splitextExtList (l : List Char) : List Char :=
  let base := (l.reverse.takeWhile (fun c => c != '/')).reverse
  let revBase := base.reverse
  if revBase.contains '.' then
    let afterDot := (revBase.takeWhile (fun c => c != '.')).reverse
    let stem := base.take (base.length - afterDot.length - 1)
    if stem.all (fun c => c == '.') then [] else '.' :: afterDot
  else []

/-- The specification's reading of the sanitization step: each maximal
run of non-word characters becomes one underscore.  Stated the way the
spec phrases it — on meeting a non-word character, emit `'_'` and skip
the whole run — to be compared with `sanitizeAux`, the scanner
modelling the source's `re.sub(r'\W+', '_', ·)`. -/
def replaceRuns : List Char → List Char
  | [] => []
  | c :: cs =>
      if isWordChar c then c :: replaceRuns cs
      else '_' :: replaceRuns (cs.dropWhile (fun d => !(isWordChar d)))
termination_by l => l.length
decreasing_by
  all_goals
    have h := (@List.dropWhile_sublist Char cs (fun d => !(isWordChar d))).length_le
    simp only [List.length_cons]
    omega

/-- `determine_apod_file_path`: sanitize the stripped title, take the
URL's extension, and join under the cache directory.  The module-level
global `image_cache_dir` becomes an explicit argument, and
`os.path.join` is modelled as joining with `'/'`. -/
def determine_apod_file_path (image_cache_dir image_title image_url : String) : String :=
  let t : String := ⟨sanitizeAux false (pyStrip image_title).data⟩
  let ext : String := ⟨splitextExtList image_url.data⟩
  image_cache_dir ++ "/" ++ t ++ ext

/-! ### CacheStore: the sqlite database of init_apod_cache -/

/-- One row of the `apod_images` table. -/
structure ApodRecord where
  id : Nat
  title : String
  explanation : String
  file_path : String
  sha256 : String
deriving Repr, DecidableEq

/-- The sqlite database file: named tables with their rows.  A query
against a table name that is not present fails, as `sqlite3` raises
`OperationalError: no such table`. -/
structure ImageCacheDb where
  tables : List (String × List ApodRecord)
deriving Repr, DecidableEq

/-- Look up a table's rows by table name. -/
def getTable (db : ImageCacheDb) (name : String) : Option (List ApodRecord) :=
  (db.tables.find? (fun t => t.1 == name)).map (fun t => t.2)

/-- Replace the rows of an existing table. -/
def setTable (db : ImageCacheDb) (name : String) (rows : List ApodRecord) : ImageCacheDb :=
  ⟨db.tables.map (fun t => if t.1 == name then (name, rows) else t)⟩

/-- `init_apod_cache`: connect (creating an empty database file when
none exists) and `CREATE TABLE IF NOT EXISTS apod_images`. -/
def init_apod_cache (db : Option ImageCacheDb) : ImageCacheDb :=
  let d := db.getD ⟨[]⟩
  match getTable d "apod_images" with
  | some _ => d
  | none => ⟨d.tables ++ [("apod_images", [])]⟩

/-- The rowid sqlite bases the next `INTEGER PRIMARY KEY` value on. -/
def maxRowid (rows : List ApodRecord) : Nat :=
  rows.foldl (fun m r => max m r.id) 0

/-- `add_apod_to_db`: `INSERT INTO apod_images (title, explanation,
file_path, sha256) VALUES (?, ?, ?, ?)` and return `cur.lastrowid`.
The `id INTEGER PRIMARY KEY` column is auto-assigned the largest
existing rowid plus one. -/
def add_apod_to_db (db : ImageCacheDb) (title explanation file_path sha256 : String) :
    Except String (ImageCacheDb × Nat) :=
  match getTable db "apod_images" with
  | none => Except.error "no such table: apod_images"
  | some rows =>
      let newId := maxRowid rows + 1
      Except.ok (setTable db "apod_images"
        (rows ++ [⟨newId, title, explanation, file_path, sha256⟩]), newId)

/-- `get_apod_id_from_db`: `SELECT id FROM apod_images WHERE sha256=?`,
`fetchone`, and `row[0]` when a row came back, else `0`. -/
def get_apod_id_from_db (db : ImageCacheDb) (image_sha256 : String) : Except String Nat :=
  match getTable db "apod_images" with
  | none => Except.error "no such table: apod_images"
  | some rows =>
      match rows.find? (fun r => r.sha256 == image_sha256) with
      | some r => Except.ok r.id
      | none => Except.ok 0

/-- `get_apod_info`: `SELECT title, explanation, file_path FROM
apod_images WHERE id=?`; a result dictionary is an association list,
empty when no row matched. -/
def get_apod_info (db : ImageCacheDb) (image_id : Nat) :
    Except String (List (String × String)) :=
  match getTable db "apod_images" with
  | none => Except.error "no such table: apod_images"
  | some rows =>
      match rows.find? (fun r => r.id == image_id) with
      | some r => Except.ok
          [("title", r.title), ("explanation", r.explanation), ("file_path", r.file_path)]
      | none => Except.ok []

/-- `get_all_apod_titles`: `SELECT title FROM apod_cache` — the source
queries table `apod_cache`, not the `apod_images` table the cache
creates. -/
def get_all_apod_titles (db : ImageCacheDb) : Except String (List String) :=
  match getTable db "apod_cache" with
  | none => Except.error "no such table: apod_cache"
  | some rows => Except.ok (rows.map (fun r => r.title))

/-! ### image_lib.save_image_file and the cache directory -/

/-- The payload files on disk: path to byte content. -/
structure FileSystem where
  files : List (String × List Nat)
deriving Repr, DecidableEq

/-- Write a file, overwriting any file already at the path. -/
def setFile (fs : FileSystem) (path : String) (data : List Nat) : FileSystem :=
  if (fs.files.find? (fun f => f.1 == path)).isSome then
    ⟨fs.files.map (fun f => if f.1 == path then (path, data) else f)⟩
  else ⟨fs.files ++ [(path, data)]⟩

/-- `image_lib.save_image_file`: `open(image_path, "wb")` and write,
returning `True` on success and `False` on any failure, in which case
the disk is unchanged.  Whether a path accepts the write is the
environment's choice, abstracted as the `writable` predicate. -/
def save_image_file (writable : String → Bool) (fs : FileSystem)
    (image_data : List Nat) (image_path : String) : FileSystem × Bool :=
  if writable image_path then (setFile fs image_path image_data, true)
  else (fs, false)

/-! ### CacheService: the dedup-and-insert logic of add_apod_to_cache -/

/-- The dedup-and-insert core of `add_apod_to_cache`, after the two
downloads have produced `image_data`, the title, the explanation and
the image URL: hash the bytes, look the hash up, save the file only on
a miss (ignoring `save_image_file`'s boolean result, as the source
does), then call `add_apod_to_db` unconditionally — the call sits
after the if/else, not inside the miss branch — and return its id. -/
def add_apod_to_cache (writable : String → Bool) (image_cache_dir : String)
    (db : ImageCacheDb) (fs : FileSystem) (image_data : List Nat)
    (title explanation image_url : String) :
    Except String (ImageCacheDb × FileSystem × Nat) :=
  let image_sha256 := sha256hex image_data
  match get_apod_id_from_db db image_sha256 with
  | Except.error e => Except.error e
  | Except.ok apod_id =>
      let fs' :=
        if apod_id != 0 then fs
        else
          let file_path := determine_apod_file_path image_cache_dir title image_url
          (save_image_file writable fs image_data file_path).1
      let file_path := determine_apod_file_path image_cache_dir title image_url
      match add_apod_to_db db title explanation file_path image_sha256 with
      | Except.error e => Except.error e
      | Except.ok (db', newId) => Except.ok (db', fs', newId)

/-! ### Derived forms used by the theorems -/

/-- The rows of the `apod_images` table, empty when the table is missing. -/
def imageRows (db : ImageCacheDb) : List ApodRecord :=
  (getTable db "apod_images").getD []

/-- The `(title, explanation, file_path, sha256)` arguments of one
`add_apod_to_db` call. -/
abbrev InsertArgs := String × String × String × String

/-- The freshly initialized cache database. -/
def db0 : ImageCacheDb := init_apod_cache none

/-- Run a sequence of `add_apod_to_db` calls, collecting the assigned
ids; a failing call stops the run. -/
def runInserts : ImageCacheDb → List InsertArgs → ImageCacheDb × List Nat
  | db, [] => (db, [])
  | db, a :: rest =>
      match add_apod_to_db db a.1 a.2.1 a.2.2.1 a.2.2.2 with
      | Except.ok (db', i) =>
          let r := runInserts db' rest
          (r.1, i :: r.2)
      | Except.error _ => (db, [])

/-! ### Helper lemmas -/

/-- Every output character of the nibble renderer is a lowercase hex digit. -/
lemma nibbleChar_hex (n : Nat) : isLowerHexDigit (nibbleChar n) = true := by
  unfold nibbleChar
  split <;> decide

/-- The left-to-right scanner behind `re.sub(r'\W+', '_', ·)` agrees with
the spec's maximal-run description, for both scanner states. -/
lemma sanitizeAux_eq_replaceRuns (l : List Char) :
    sanitizeAux false l = replaceRuns l ∧
    sanitizeAux true l = replaceRuns (l.dropWhile (fun d => !(isWordChar d))) := by
  induction l with
  | nil => constructor <;> simp [sanitizeAux, replaceRuns]
  | cons c cs ih =>
    by_cases hw : isWordChar c
    · constructor
      · simp [sanitizeAux, replaceRuns, hw, ih.1]
      · simp [sanitizeAux, List.dropWhile_cons, hw, replaceRuns, ih.1]
    · constructor
      · simp [sanitizeAux, hw, replaceRuns, List.dropWhile_cons, ih.2]
      · simp [sanitizeAux, hw, List.dropWhile_cons, ih.2]

/-! ### The claims -/

/-- C5.  Path resolution is deterministic and follows the sanitization
algorithm: `determine_apod_file_path` is exactly the composition of
whitespace trimming, replacement of each maximal run of non-word
characters by a single underscore (`replaceRuns`, the maximal-run
reading), extension extraction from the URL, and joining under the
cache directory; and on the spec's example title and URL it yields
`dir/NGC_3521_Galaxy_in_a_Bubble.jpg`.  Determinism is inherent: the
embedding is a pure function of `(dir, title, url)`. -/
theorem claim5_path_resolution :
    (∀ dir title url : String, determine_apod_file_path dir title url =
      dir ++ "/" ++ String.mk (replaceRuns (pyStrip title).data) ++
        String.mk (splitextExtList url.data)) ∧
    determine_apod_file_path "dir" " NGC #3521: Galaxy in a Bubble "
        "https://apod.nasa.gov/apod/image/2205/NGC3521LRGBHaAPOD-20.jpg"
      = "dir/NGC_3521_Galaxy_in_a_Bubble.jpg" := by
  constructor
  · intro dir title url
    unfold determine_apod_file_path
    rw [(sanitizeAux_eq_replaceRuns (pyStrip title).data).1]
  · decide

/-- C6.  Hash determinism and shape: the fingerprint is a pure function
of the input bytes (it is a Lean function, so call order and prior
state cannot enter), always a 64-character string of lowercase hex
digits; the empty byte string is legal input and yields the fixed
SHA-256 digest of the empty string, and the digest of `b"abc"` matches
the SHA-256 reference value. -/
theorem claim6_hash_shape_and_reference_digests :
    (∀ msg : List Nat, (sha256hex msg).length = 64 ∧
      (sha256hex msg).data.all isLowerHexDigit = true) ∧
    sha256hex [] = "e3b0c44298fc1c149afbf4c8996fb92427ae41e4649b934ca495991b7852b855" ∧
    sha256hex [97, 98, 99]
      = "ba7816bf8f01cfea414140de5dae2223b00361a396177a9cb410ff61f20015ad" := by
  refine ⟨fun msg => ⟨?_, ?_⟩, by decide, by decide⟩
  · simp [sha256hex, String.length, wordHex]
  · simp [sha256hex, wordHex, List.all_append, nibbleChar_hex]

/-- C7.  `get_apod_id_from_db` never returns a false positive: over any
table contents, a non-zero result is the id of a row whose `sha256`
column equals the queried fingerprint exactly, and when no row has that
fingerprint the result is the not-found signal `0`. -/
theorem claim7_find_no_false_positive (db : ImageCacheDb) (rows : List ApodRecord)
    (sha : String) (htab : getTable db "apod_images" = some rows) :
    (∀ n : Nat, get_apod_id_from_db db sha = Except.ok n → n ≠ 0 →
      ∃ r : ApodRecord, r ∈ rows ∧ r.sha256 = sha ∧ r.id = n) ∧
    ((∀ r : ApodRecord, r ∈ rows → r.sha256 ≠ sha) →
      get_apod_id_from_db db sha = Except.ok 0) := by
  cases hfind : rows.find? (fun r => r.sha256 == sha) with
  | some r =>
    have hval : get_apod_id_from_db db sha = Except.ok r.id := by
      unfold get_apod_id_from_db
      rw [htab]
      simp only [hfind]
    constructor
    · intro n hok _
      have hmem := List.mem_of_find?_eq_some hfind
      have hsha : r.sha256 = sha := by
        have := List.find?_some hfind
        simpa using this
      have hid : r.id = n := by
        rw [hval] at hok
        injection hok
      exact ⟨r, hmem, hsha, hid⟩
    · intro hnone
      have hmem := List.mem_of_find?_eq_some hfind
      have hsha : r.sha256 = sha := by
        have := List.find?_some hfind
        simpa using this
      exact absurd hsha (hnone r hmem)
  | none =>
    have hval : get_apod_id_from_db db sha = Except.ok 0 := by
      unfold get_apod_id_from_db
      rw [htab]
      simp only [hfind]
    constructor
    · intro n hok hn
      rw [hval] at hok
      injection hok with h
      exact absurd h.symm hn
    · intro _
      exact hval

/-- Witness for C7: at a one-row store the theorem applies with every
hypothesis discharged on concrete input. -/
theorem claim7_witness :
    (∀ n : Nat,
      get_apod_id_from_db ⟨[("apod_images", [⟨1, "t", "e", "p", "s"⟩])]⟩ "s" = Except.ok n →
      n ≠ 0 →
      ∃ r : ApodRecord, r ∈ [(⟨1, "t", "e", "p", "s"⟩ : ApodRecord)] ∧ r.sha256 = "s" ∧ r.id = n) ∧
    ((∀ r : ApodRecord, r ∈ [(⟨1, "t", "e", "p", "s"⟩ : ApodRecord)] → r.sha256 ≠ "s") →
      get_apod_id_from_db ⟨[("apod_images", [⟨1, "t", "e", "p", "s"⟩])]⟩ "s" = Except.ok 0) :=
  claim7_find_no_false_positive ⟨[("apod_images", [⟨1, "t", "e", "p", "s"⟩])]⟩
    [⟨1, "t", "e", "p", "s"⟩] "s" (by decide)

/-- When the ids in a table are pairwise distinct, the row scan finds a
member row by its id. -/
lemma find?_id_eq_some (rows : List ApodRecord) (r : ApodRecord) (i : Nat)
    (hnd : (rows.map (fun x => x.id)).Nodup) (hr : r ∈ rows) (hid : r.id = i) :
    rows.find? (fun x => x.id == i) = some r := by
  induction rows with
  | nil => cases hr
  | cons x xs ih =>
    rw [List.map_cons, List.nodup_cons] at hnd
    rcases List.mem_cons.mp hr with h | h
    · subst h
      simp [List.find?_cons, hid]
    · have hx : (x.id == i) = false := by
        rw [beq_eq_false_iff_ne]
        intro hxi
        exact hnd.1 (hxi.trans hid.symm ▸ List.mem_map_of_mem (fun y => y.id) h)
      simp only [List.find?_cons, hx]
      exact ih hnd.2 h

/-- C10.  `get_apod_info`'s not-found shape: for an id with no row it
returns the empty dictionary rather than an error, and for an id
carried by a row of an id-unique table it returns a dictionary with
exactly the keys `title`, `explanation` and `file_path` holding that
row's stored values. -/
theorem claim10_get_info_shape (db : ImageCacheDb) (rows : List ApodRecord)
    (i : Nat) (htab : getTable db "apod_images" = some rows) :
    ((∀ r : ApodRecord, r ∈ rows → r.id ≠ i) → get_apod_info db i = Except.ok []) ∧
    (∀ r : ApodRecord, (rows.map (fun x => x.id)).Nodup → r ∈ rows → r.id = i →
      get_apod_info db i = Except.ok
        [("title", r.title), ("explanation", r.explanation), ("file_path", r.file_path)]) := by
  constructor
  · intro hnone
    have hfind : rows.find? (fun r => r.id == i) = none := by
      rw [List.find?_eq_none]
      intro x hx
      simp [hnone x hx]
    unfold get_apod_info
    rw [htab]
    simp only [hfind]
  · intro r hnd hr hid
    have hfind := find?_id_eq_some rows r i hnd hr hid
    unfold get_apod_info
    rw [htab]
    simp only [hfind]

/-- Witness for C10: at a one-row store the theorem applies with every
hypothesis discharged on concrete input. -/
theorem claim10_witness :
    get_apod_info ⟨[("apod_images", [⟨1, "t", "e", "p", "s"⟩])]⟩ 1 =
      Except.ok [("title", "t"), ("explanation", "e"), ("file_path", "p")] ∧
    get_apod_info ⟨[("apod_images", [⟨1, "t", "e", "p", "s"⟩])]⟩ 2 = Except.ok [] :=
  ⟨(claim10_get_info_shape ⟨[("apod_images", [⟨1, "t", "e", "p", "s"⟩])]⟩
      [⟨1, "t", "e", "p", "s"⟩] 1 (by decide)).2 ⟨1, "t", "e", "p", "s"⟩
      (by decide) (by decide) (by decide),
   (claim10_get_info_shape ⟨[("apod_images", [⟨1, "t", "e", "p", "s"⟩])]⟩
      [⟨1, "t", "e", "p", "s"⟩] 2 (by decide)).1 (by decide)⟩

/-- Rewriting a table's rows leaves it findable, with the new rows. -/
lemma find?_map_set (ts : List (String × List ApodRecord)) (name : String)
    (rs : List ApodRecord) (h : (ts.find? (fun t => t.1 == name)).isSome = true) :
    ((ts.map (fun t => if t.1 == name then (name, rs) else t)).find?
      (fun t => t.1 == name)) = some (name, rs) := by
  induction ts with
  | nil => simp at h
  | cons t ts ih =>
    rw [List.map_cons]
    by_cases ht : (t.1 == name) = true
    · rw [if_pos ht]
      exact List.find?_cons_of_pos _ (by simp)
    · rw [if_neg ht]
      rw [@List.find?_cons_of_neg _ (fun t => t.1 == name) t _ ht]
      have h' : (ts.find? (fun t => t.1 == name)).isSome = true := by
        rw [@List.find?_cons_of_neg _ (fun t => t.1 == name) t ts ht] at h
        exact h
      exact ih h'

/-- `setTable` on the records table replaces exactly its rows. -/
lemma getTable_setTable (db : ImageCacheDb) (rows rs : List ApodRecord)
    (h : getTable db "apod_images" = some rows) :
    getTable (setTable db "apod_images" rs) "apod_images" = some rs := by
  have hs : (db.tables.find? (fun t => t.1 == "apod_images")).isSome = true := by
    unfold getTable at h
    cases hf : db.tables.find? (fun t => t.1 == "apod_images") with
    | none => rw [hf] at h; cases h
    | some t => simp
  unfold getTable setTable
  rw [find?_map_set db.tables "apod_images" rs hs]
  rfl

/-- The value of one `add_apod_to_db` call on a store whose records
table holds `rows`. -/
lemma add_apod_to_db_eq (db : ImageCacheDb) (rows : List ApodRecord)
    (t e p s : String) (h : getTable db "apod_images" = some rows) :
    add_apod_to_db db t e p s =
      Except.ok (setTable db "apod_images"
        (rows ++ [⟨maxRowid rows + 1, t, e, p, s⟩]), maxRowid rows + 1) := by
  unfold add_apod_to_db
  rw [h]

/-- The max-fold only grows from its accumulator. -/
lemma foldl_max_acc (l : List ApodRecord) :
    ∀ acc : Nat, acc ≤ l.foldl (fun m r => max m r.id) acc := by
  induction l with
  | nil => intro acc; simp
  | cons x xs ih =>
    intro acc
    exact le_trans (le_max_left acc x.id) (ih (max acc x.id))

/-- Every member's id is bounded by the max-fold. -/
lemma id_le_foldl_max (l : List ApodRecord) (r : ApodRecord) :
    ∀ acc : Nat, r ∈ l → r.id ≤ l.foldl (fun m r => max m r.id) acc := by
  induction l with
  | nil => intro _ h; cases h
  | cons x xs ih =>
    intro acc h
    rcases List.mem_cons.mp h with h | h
    · subst h
      exact le_trans (le_max_right acc r.id) (foldl_max_acc xs (max acc r.id))
    · exact ih (max acc x.id) h

/-- Appending one record moves the rowid maximum by a plain `max`. -/
lemma maxRowid_append (rows : List ApodRecord) (r : ApodRecord) :
    maxRowid (rows ++ [r]) = max (maxRowid rows) r.id := by
  unfold maxRowid
  rw [List.foldl_append]
  rfl

/-- The invariant the insert sequence maintains: starting from a store
whose records table carries ids `1 … k` with rowid maximum `k`, a run
of inserts appends records whose ids continue `k+1, k+2, …`, and the
run reports exactly those ids. -/
lemma runInserts_spec (args : List InsertArgs) :
    ∀ (db : ImageCacheDb) (rows : List ApodRecord) (k : Nat),
      getTable db "apod_images" = some rows →
      rows.map (fun r => r.id) = List.range' 1 k →
      maxRowid rows = k →
      ∃ newRecs : List ApodRecord,
        getTable (runInserts db args).1 "apod_images" = some (rows ++ newRecs) ∧
        (rows ++ newRecs).map (fun r => r.id) = List.range' 1 (k + args.length) ∧
        maxRowid (rows ++ newRecs) = k + args.length ∧
        (runInserts db args).2 = List.range' (k + 1) args.length := by
  induction args with
  | nil =>
    intro db rows k h1 h2 h3
    exact ⟨[], by simpa using h1, by simpa using h2, by simpa using h3, rfl⟩
  | cons a rest ih =>
    intro db rows k h1 h2 h3
    have hadd := add_apod_to_db_eq db rows a.1 a.2.1 a.2.2.1 a.2.2.2 h1
    rw [h3] at hadd
    have h1' : getTable (setTable db "apod_images"
        (rows ++ [⟨k + 1, a.1, a.2.1, a.2.2.1, a.2.2.2⟩])) "apod_images"
        = some (rows ++ [⟨k + 1, a.1, a.2.1, a.2.2.1, a.2.2.2⟩]) :=
      getTable_setTable db rows _ h1
    have h2' : (rows ++ [(⟨k + 1, a.1, a.2.1, a.2.2.1, a.2.2.2⟩ : ApodRecord)]).map
        (fun r => r.id) = List.range' 1 (k + 1) := by
      have hcat := @List.range'_concat 1 1 k
      simp only [Nat.one_mul] at hcat
      rw [List.map_append, h2, hcat, List.map_singleton, Nat.add_comm 1 k]
    have h3' : maxRowid (rows ++ [(⟨k + 1, a.1, a.2.1, a.2.2.1, a.2.2.2⟩ : ApodRecord)])
        = k + 1 := by
      rw [maxRowid_append, h3]
      exact max_eq_right (Nat.le_succ k)
    obtain ⟨newRecs, hg, hm, hx, ht⟩ :=
      ih (setTable db "apod_images" (rows ++ [⟨k + 1, a.1, a.2.1, a.2.2.1, a.2.2.2⟩]))
        (rows ++ [⟨k + 1, a.1, a.2.1, a.2.2.1, a.2.2.2⟩]) (k + 1) h1' h2' h3'
    refine ⟨⟨k + 1, a.1, a.2.1, a.2.2.1, a.2.2.2⟩ :: newRecs, ?_, ?_, ?_, ?_⟩
    · simp only [runInserts, hadd]
      rw [List.append_assoc] at hg
      exact hg
    · rw [List.append_assoc] at hm
      rw [List.length_cons]
      have harith : k + (rest.length + 1) = k + 1 + rest.length := by omega
      rw [harith]
      exact hm
    · rw [List.append_assoc] at hx
      rw [List.length_cons]
      have harith : k + (rest.length + 1) = k + 1 + rest.length := by omega
      rw [harith]
      exact hx
    · simp only [runInserts, hadd, ht]
      rw [List.length_cons, List.range'_succ]

/-- Splitting a run of inserts at an append boundary, over any store
whose records table exists (every insert then succeeds). -/
lemma runInserts_append (xs ys : List InsertArgs) :
    ∀ (db : ImageCacheDb) (rows : List ApodRecord),
      getTable db "apod_images" = some rows →
      runInserts db (xs ++ ys) =
        ((runInserts (runInserts db xs).1 ys).1,
         (runInserts db xs).2 ++ (runInserts (runInserts db xs).1 ys).2) := by
  induction xs with
  | nil => intro db rows h; simp [runInserts]
  | cons a xs ih =>
    intro db rows h
    have hadd := add_apod_to_db_eq db rows a.1 a.2.1 a.2.2.1 a.2.2.2 h
    have h1' := getTable_setTable db rows
      (rows ++ [⟨maxRowid rows + 1, a.1, a.2.1, a.2.2.1, a.2.2.2⟩]) h
    have ihh := ih _ _ h1'
    simp only [List.cons_append, runInserts, hadd, List.append_eq, ihh]

/-- C8.  Record ids are unique, monotonically increasing, and never
reused or mutated: every run of successful inserts into the freshly
initialized store assigns the ids `1, 2, …, n` in order — each id
strictly greater than every previously assigned one — the stored
rows carry pairwise-distinct ids, and the rows present after `args`
survive unchanged, in place, through any further inserts `extra`. -/
theorem claim8_ids_monotone_unique_immutable (args extra : List InsertArgs) :
    (runInserts db0 args).2 = List.range' 1 args.length ∧
    List.Pairwise (fun x y => x < y) ((runInserts db0 args).2) ∧
    (imageRows (runInserts db0 args).1).map (fun r => r.id) = List.range' 1 args.length ∧
    ((imageRows (runInserts db0 args).1).map (fun r => r.id)).Nodup ∧
    imageRows (runInserts db0 args).1 <+: imageRows (runInserts db0 (args ++ extra)).1 := by
  obtain ⟨recs, hg, hm, hx, ht⟩ := runInserts_spec args db0 [] 0 rfl rfl rfl
  simp only [List.nil_append, Nat.zero_add] at hg hm hx ht
  have hrows : imageRows (runInserts db0 args).1 = recs := by
    unfold imageRows
    rw [hg]
    rfl
  refine ⟨ht, ?_, ?_, ?_, ?_⟩
  · rw [ht]
    exact List.pairwise_lt_range' 1 args.length
  · rw [hrows, hm]
  · rw [hrows, hm]
    exact List.nodup_range' 1 args.length
  · obtain ⟨recs2, hg2, _, _, _⟩ :=
      runInserts_spec extra (runInserts db0 args).1 recs args.length hg hm hx
    have happ := runInserts_append args extra db0 [] rfl
    have hfull : imageRows (runInserts db0 (args ++ extra)).1 = recs ++ recs2 := by
      rw [happ]
      show imageRows (runInserts (runInserts db0 args).1 extra).1 = recs ++ recs2
      unfold imageRows
      rw [hg2]
      rfl
    rw [hrows, hfull]
    exact ⟨recs2, rfl⟩

/-- C9.  The not-found sentinel never collides with a real id: every id
a run of inserts from the freshly initialized store assigns, and the id
of every stored row, is at least `1`, so the `0` that
`get_apod_id_from_db` returns on a miss (and that `add_apod_to_cache`
treats as "not in cache") can never equal an existing record's id. -/
theorem claim9_sentinel_never_collides (args : List InsertArgs) :
    (∀ i : Nat, i ∈ (runInserts db0 args).2 → 1 ≤ i) ∧
    (∀ r : ApodRecord, r ∈ imageRows (runInserts db0 args).1 → 1 ≤ r.id) := by
  obtain ⟨recs, hg, hm, _, ht⟩ := runInserts_spec args db0 [] 0 rfl rfl rfl
  simp only [List.nil_append, Nat.zero_add] at hg hm ht
  have hrows : imageRows (runInserts db0 args).1 = recs := by
    unfold imageRows
    rw [hg]
    rfl
  constructor
  · intro i hi
    rw [ht] at hi
    exact (List.mem_range'_1.mp hi).1
  · intro r hr
    rw [hrows] at hr
    have : r.id ∈ recs.map (fun r => r.id) := List.mem_map_of_mem (fun r => r.id) hr
    rw [hm] at this
    exact (List.mem_range'_1.mp this).1

/-- Witness for C9: after one insert into the fresh store, the assigned
id `1` and the stored row both satisfy the bound. -/
theorem claim9_witness :
    (1 ∈ (runInserts db0 [("t", "e", "p", "s")]).2 ∧ 1 ≤ 1) ∧
    ((⟨1, "t", "e", "p", "s"⟩ : ApodRecord) ∈
        imageRows (runInserts db0 [("t", "e", "p", "s")]).1 ∧
      1 ≤ (⟨1, "t", "e", "p", "s"⟩ : ApodRecord).id) :=
  ⟨⟨by decide, (claim9_sentinel_never_collides [("t", "e", "p", "s")]).1 1 (by decide)⟩,
   ⟨by decide, (claim9_sentinel_never_collides [("t", "e", "p", "s")]).2
      ⟨1, "t", "e", "p", "s"⟩ (by decide)⟩⟩

/-- A disk on which every path accepts writes. -/
def wAll : String → Bool := fun _ => true

/-- A disk on which every write fails. -/
def wNone : String → Bool := fun _ => false

/-- The SHA-256 hex digest of the payload bytes `abc`. -/
def abcSha : String :=
  "ba7816bf8f01cfea414140de5dae2223b00361a396177a9cb410ff61f20015ad"

/-- The database after a first ingest of the bytes `abc` under title
`T` from the fresh cache. -/
def dbAfterFirst : ImageCacheDb :=
  ⟨[("apod_images", [⟨1, "T", "E", "dir/T.jpg", abcSha⟩])]⟩

/-- The disk after that first ingest wrote the payload file. -/
def fsAfterFirst : FileSystem := ⟨[("dir/T.jpg", [97, 98, 99])]⟩

/-- The database after a second, identical ingest: a duplicate row. -/
def dbAfterSecond : ImageCacheDb :=
  ⟨[("apod_images",
     [⟨1, "T", "E", "dir/T.jpg", abcSha⟩, ⟨2, "T", "E", "dir/T.jpg", abcSha⟩])]⟩

/-- C1 is contradicted by the code.  `add_apod_to_cache` calls
`add_apod_to_db` unconditionally — the insert sits after the cache-hit
if/else, not inside the miss branch — so the second ingestion of the
same payload bytes `abc` writes no new file (that part of the claim
holds) but inserts a second record with the same fingerprint and
returns the fresh id `2`, not the first call's id `1`. -/
theorem claim1_double_ingest_inserts_duplicate :
    add_apod_to_cache wAll "dir" (init_apod_cache none) ⟨[]⟩ [97, 98, 99] "T" "E"
        "http://x/y.jpg" = Except.ok (dbAfterFirst, fsAfterFirst, 1) ∧
    add_apod_to_cache wAll "dir" dbAfterFirst fsAfterFirst [97, 98, 99] "T" "E"
        "http://x/y.jpg" = Except.ok (dbAfterSecond, fsAfterFirst, 2) ∧
    (2 : Nat) ≠ 1 ∧
    (imageRows dbAfterSecond).length = 2 ∧
    ((imageRows dbAfterSecond).filter
        (fun r => r.sha256 == sha256hex [97, 98, 99])).length = 2 ∧
    fsAfterFirst.files.length = 1 := by
  refine ⟨rfl, rfl, by decide, by decide, by decide, by decide⟩

/-- C2 is contradicted by the code.  `image_lib.save_image_file`
reports failure by returning `False`, but `add_apod_to_cache` ignores
that result and proceeds to `add_apod_to_db`, so after a failed write
(no file on disk) a record for the fingerprint exists all the same and
`get_apod_id_from_db` reports it, not the not-found `0`. -/
theorem claim2_write_failure_still_inserts :
    (save_image_file wNone ⟨[]⟩ [97, 98, 99] "dir/T.jpg").2 = false ∧
    add_apod_to_cache wNone "dir" (init_apod_cache none) ⟨[]⟩ [97, 98, 99] "T" "E"
        "http://x/y.jpg" = Except.ok (dbAfterFirst, ⟨[]⟩, 1) ∧
    get_apod_id_from_db dbAfterFirst (sha256hex [97, 98, 99]) = Except.ok 1 ∧
    (1 : Nat) ≠ 0 := by
  refine ⟨by decide, rfl, rfl, by decide⟩

/-- C3 as stated is false on the code: the `apod_images` schema has no
uniqueness constraint on `sha256`, so inserting a fingerprint that
already exists does not fail with a Conflict — it succeeds, appends a
second row with the same fingerprint, and returns the fresh id `2`. -/
theorem claim3_counterexample :
    add_apod_to_db ⟨[("apod_images", [⟨1, "t1", "e1", "p1", "f"⟩])]⟩ "t2" "e2" "p2" "f"
      = Except.ok (⟨[("apod_images",
          [⟨1, "t1", "e1", "p1", "f"⟩, ⟨2, "t2", "e2", "p2", "f"⟩])]⟩, 2) ∧
    ((imageRows ⟨[("apod_images",
        [⟨1, "t1", "e1", "p1", "f"⟩, ⟨2, "t2", "e2", "p2", "f"⟩])]⟩).filter
      (fun r => r.sha256 == "f")).length = 2 := by
  refine ⟨rfl, by decide⟩

/-- C3 amended: `add_apod_to_db` on an initialized store never raises a
Conflict; whether or not the fingerprint is already present, it
succeeds, appends one record, and returns a fresh identifier — one
greater than the largest existing id, hence unequal to every existing
record's id. -/
theorem claim3_insert_always_appends_fresh_id (db : ImageCacheDb)
    (rows : List ApodRecord) (t e p s : String)
    (htab : getTable db "apod_images" = some rows) :
    add_apod_to_db db t e p s =
      Except.ok (setTable db "apod_images"
        (rows ++ [⟨maxRowid rows + 1, t, e, p, s⟩]), maxRowid rows + 1) ∧
    (∀ r : ApodRecord, r ∈ rows → r.id < maxRowid rows + 1) :=
  ⟨add_apod_to_db_eq db rows t e p s htab,
   fun r hr => Nat.lt_succ_of_le (id_le_foldl_max rows r 0 hr)⟩

/-- Witness for the amended C3: the theorem applied at the fresh store
with its hypothesis discharged on concrete input. -/
theorem claim3_witness :
    add_apod_to_db ⟨[("apod_images", [])]⟩ "t" "e" "p" "s" =
      Except.ok (setTable ⟨[("apod_images", [])]⟩ "apod_images"
        ([] ++ [⟨maxRowid [] + 1, "t", "e", "p", "s"⟩]), maxRowid [] + 1) ∧
    (∀ r : ApodRecord, r ∈ ([] : List ApodRecord) → r.id < maxRowid [] + 1) :=
  claim3_insert_always_appends_fresh_id ⟨[("apod_images", [])]⟩ [] "t" "e" "p" "s"
    (by decide)

/-- C4 is contradicted by the code.  `get_all_apod_titles` queries the
table `apod_cache`, but `init_apod_cache` only ever creates
`apod_images`: after initializing the cache and inserting rows titled
`A`, `B`, `A` — whose titles are all present in `apod_images` — the
call fails with the missing-table error instead of returning them. -/
theorem claim4_titles_query_missing_table :
    get_all_apod_titles (runInserts db0
        [("A", "e1", "p1", "s1"), ("B", "e2", "p2", "s2"), ("A", "e3", "p3", "s3")]).1
      = Except.error "no such table: apod_cache" ∧
    (imageRows (runInserts db0
        [("A", "e1", "p1", "s1"), ("B", "e2", "p2", "s2"), ("A", "e3", "p3", "s3")]).1).map
      (fun r => r.title) = ["A", "B", "A"] := by
  refine ⟨rfl, by decide⟩

end Apod
